import Mathlib

/-!
Verification of the reef endpoint compilation and request-dispatch engine.

Shallow embedding of:
- `src/helpers/default-casters.helper.ts` (`DefaultCasters.cast`, `Number`, `Boolean`)
- `src/helpers/base-controller.class.ts` (`getMethod`, the path normalization of
  `createEndpoint`, `getEndpointInputVars`, `createEndpointFunc` /
  `handleResponse` / `handleResponseError`)
- `decorators/log.decorator.ts` (the param-binding built by the `Logger` decorator)

JavaScript runtime values are modelled by the inductive `JsValue`; JS numbers
are modelled as exact rationals (double rounding and infinities are outside the
model; theorems rely only on behaviour where the two agree).  The builtin
`Number()` conversion is modelled by `jsNumber` via the ECMAScript
`StringNumericLiteral` grammar, with `none` standing for `NaN`.  The property
lookup `this[meta.type.name]` of `cast` is modelled by the full own-and-
inherited property list of a `DefaultCasters` instance; the behaviour of a
collision with a non-caster property is an uninterpreted parameter `other`, so
the theorems hold whatever such a call does.
-/

set_option autoImplicit false

namespace Reef

/-- Model of the JavaScript values flowing through the dispatcher and casters. -/
inductive JsValue where
  | vStr (s : String)
  | vNum (q : Rat)
  | vBool (b : Bool)
  | vNull
  | vUndefined
  | vObj (className : String)
  deriving DecidableEq, Repr

/-- Model of the constructor stored in a param-binding descriptor `type` field
(`Number`, `Boolean`, `String`, or some other host class). -/
inductive TypeTag where
  | tNumber
  | tBoolean
  | tString
  | tOther (s : String)
  deriving DecidableEq, Repr

/-- The `.name` property of the constructor, as read by `this[meta.type.name]`. -/
def TypeTag.name : TypeTag → String
  | .tNumber => "Number"
  | .tBoolean => "Boolean"
  | .tString => "String"
  | .tOther s => s

/-- `EndpointParamMeta`: one parameter-binding descriptor.  A `type` of `none`
models a JS `null` type field (as written by the `Logger` decorator).  The
`actions.getValue` extractor is external input and is modelled separately as a
function argument of the dispatcher. -/
structure EndpointParamMeta where
  index : Nat
  name : String
  type : Option TypeTag
  cast : Bool
  decorator : String
  deriving DecidableEq, Repr

/-- `rawValue instanceof meta.type`: primitives are never `instanceof` a wrapper
class; only objects of the class itself are. -/
def instanceofTag : JsValue → TypeTag → Bool
  | .vObj c, t => c = t.name
  | _, _ => false

/-- Value of a digit string read left to right. -/
def digitsToNat (l : List Char) : Nat :=
  l.foldl (fun acc c => acc * 10 + (c.toNat - '0'.toNat)) 0

/-- The white-space characters the JS `Number()` conversion strips from both
ends of a string: ASCII white space, line terminators, and the Unicode space
separators. -/
def wsChars : List Char :=
  [' ', '\t', '\n', '\r', '\x0b', '\x0c', '\u00A0', '\uFEFF', '\u1680',
   '\u2000', '\u2001', '\u2002', '\u2003', '\u2004', '\u2005', '\u2006',
   '\u2007', '\u2008', '\u2009', '\u200A', '\u2028', '\u2029', '\u202F',
   '\u205F', '\u3000']

/-- Strip leading and trailing white space. -/
def trimWs (l : List Char) : List Char :=
  ((l.dropWhile fun c => wsChars.contains c).reverse.dropWhile
    fun c => wsChars.contains c).reverse

/-- Hexadecimal digit value of a character. -/
def hexVal (c : Char) : Option Nat :=
  if '0' ≤ c ∧ c ≤ '9' then some (c.toNat - '0'.toNat)
  else if 'a' ≤ c ∧ c ≤ 'f' then some (c.toNat - 'a'.toNat + 10)
  else if 'A' ≤ c ∧ c ≤ 'F' then some (c.toNat - 'A'.toNat + 10)
  else none

/-- Digit-string value in base `b` (digit validity is checked separately). -/
def digitsValBase (b : Nat) (l : List Char) : Nat :=
  l.foldl (fun acc c => acc * b + ((hexVal c).getD 0)) 0

/-- Whether every character is a digit below base `b`. -/
def allBaseDigits (b : Nat) (l : List Char) : Bool :=
  l.all fun c =>
    match hexVal c with
    | some v => decide (v < b)
    | none => false

/-- The exponent part of a decimal literal: empty, or `e`/`E` with an optional
sign and at least one digit, consuming the whole remainder. -/
def parseExp : List Char → Option Int
  | [] => some 0
  | c :: rest =>
      if c = 'e' ∨ c = 'E' then
        match rest with
        | '+' :: ds =>
            if ds ≠ [] ∧ ds.all Char.isDigit then some (digitsToNat ds : Int) else none
        | '-' :: ds =>
            if ds ≠ [] ∧ ds.all Char.isDigit then some (-(digitsToNat ds : Int)) else none
        | ds => if ds ≠ [] ∧ ds.all Char.isDigit then some (digitsToNat ds : Int) else none
      else none

/-- Stand-in for the `Infinity` value, which the rational model cannot
represent: a finite rational beyond the double range.  Only the success of the
conversion — never this value — is used by any theorem. -/
def jsInfinityStandin : Rat := (((10 : Int) ^ (400 : Nat) : Int) : Rat)

/-- `mantissa * 10 ^ scale` as a rational, via pure integer arithmetic when the
result is integral (keeping concrete evaluation kernel-reducible). -/
def scaleByPow10 (mantissa : Int) (scale : Int) : Rat :=
  if 0 ≤ scale then ((mantissa * 10 ^ scale.toNat : Int) : Rat)
  else mkRat mantissa (10 ^ (-scale).toNat)

/-- `StrUnsignedDecimalLiteral`: `Infinity`, digits with optional fraction and
exponent, or a leading point with digits; the whole input must be consumed. -/
def parseUnsignedDec (l : List Char) : Option Rat :=
  if l = "Infinity".data then some jsInfinityStandin
  else
    match l.span Char.isDigit with
    | (ds, rest) =>
        match rest with
        | '.' :: r2 =>
            (match r2.span Char.isDigit with
            | (fs, r3) =>
                if ds = [] ∧ fs = [] then none
                else
                  match parseExp r3 with
                  | some e =>
                      some (scaleByPow10 (digitsToNat (ds ++ fs) : Int) (e - fs.length))
                  | none => none)
        | _ =>
            if ds = [] then none
            else
              match parseExp rest with
              | some e => some (scaleByPow10 (digitsToNat ds : Int) e)
              | none => none

/-- `StrDecimalLiteral`: an optional sign — allowed only on decimal literals —
followed by an unsigned decimal literal. -/
def parseSignedDec : List Char → Option Rat
  | '+' :: r => parseUnsignedDec r
  | '-' :: r => (parseUnsignedDec r).map fun q => -q
  | l => parseUnsignedDec l

/-- Model of the JS `Number()` conversion on strings: the ECMAScript
`StringNumericLiteral` grammar over exact rationals.  White space is trimmed,
the empty string is `0`, `0x`/`0o`/`0b` prefixes give unsigned non-decimal
integers, and decimal literals take an optional sign, fraction and exponent.
`none` models `NaN`. -/
def strToRatOpt (s : String) : Option Rat :=
  match trimWs s.data with
  | [] => some 0
  | '0' :: c :: rest =>
      if c = 'x' ∨ c = 'X' then
        if rest ≠ [] ∧ allBaseDigits 16 rest then some ((digitsValBase 16 rest : Int) : Rat)
        else none
      else if c = 'o' ∨ c = 'O' then
        if rest ≠ [] ∧ allBaseDigits 8 rest then some ((digitsValBase 8 rest : Int) : Rat)
        else none
      else if c = 'b' ∨ c = 'B' then
        if rest ≠ [] ∧ allBaseDigits 2 rest then some ((digitsValBase 2 rest : Int) : Rat)
        else none
      else parseSignedDec ('0' :: c :: rest)
  | l => parseSignedDec l

/-- Model of the JS `Number()` conversion on `JsValue` (`none` = `NaN`). -/
def jsNumber : JsValue → Option Rat
  | .vStr s => strToRatOpt s
  | .vNum q => some q
  | .vBool b => some (if b then 1 else 0)
  | .vNull => some 0
  | .vUndefined => none
  | .vObj _ => none

/-- Decimal digit character of `n % 10`. -/
def digitChar (n : Nat) : Char :=
  match n with
  | 0 => '0' | 1 => '1' | 2 => '2' | 3 => '3' | 4 => '4'
  | 5 => '5' | 6 => '6' | 7 => '7' | 8 => '8' | 9 => '9'
  | _ => '*'

/-- Decimal rendering of a natural number, with explicit fuel so the kernel
can evaluate it. -/
def natToChars : Nat → Nat → List Char
  | 0, _ => []
  | fuel + 1, n =>
      if n < 10 then [digitChar n]
      else natToChars fuel (n / 10) ++ [digitChar (n % 10)]

/-- The character list of the decimal rendering of an integer. -/
def intChars (i : Int) : List Char :=
  if i < 0 then '-' :: natToChars (i.natAbs + 1) i.natAbs
  else natToChars (i.toNat + 1) i.toNat

/-- Decimal rendering of an integer. -/
def intToStr (i : Int) : String :=
  String.mk (intChars i)

/-- Model of the JS `String()` conversion on numbers.  Integers render exactly
as JS renders them.  A non-integral rational renders as `num/den`; JS would
print a decimal or exponent form instead, but neither form is ever one of the
six keyword strings the `Boolean` caster compares against — the only
observation made of this rendering — so the two agree at every use. -/
def ratToStr (q : Rat) : String :=
  if q.den = 1 then intToStr q.num
  else String.mk (intChars q.num ++ '/' :: natToChars (q.den + 1) q.den)

/-- Model of the JS `String()` conversion, used by the `Boolean` caster on
string and number input only. -/
def jsStringOf : JsValue → String
  | .vStr s => s
  | .vNum q => ratToStr q
  | .vBool b => if b then "true" else "false"
  | .vNull => "null"
  | .vUndefined => "undefined"
  | .vObj _ => "[object Object]"

/-- ASCII lower-casing of one character (`.toLowerCase()` on the inputs involved). -/
def charLower (c : Char) : Char :=
  match c with
  | 'A' => 'a' | 'B' => 'b' | 'C' => 'c' | 'D' => 'd' | 'E' => 'e' | 'F' => 'f'
  | 'G' => 'g' | 'H' => 'h' | 'I' => 'i' | 'J' => 'j' | 'K' => 'k' | 'L' => 'l'
  | 'M' => 'm' | 'N' => 'n' | 'O' => 'o' | 'P' => 'p' | 'Q' => 'q' | 'R' => 'r'
  | 'S' => 's' | 'T' => 't' | 'U' => 'u' | 'V' => 'v' | 'W' => 'w' | 'X' => 'x'
  | 'Y' => 'y' | 'Z' => 'z'
  | c => c

/-- Lower-casing as done by `.toLowerCase()` on the ASCII inputs involved. -/
def strLower (s : String) : String :=
  String.mk (s.data.map charLower)

/-- The characters that can occur in a rendered number: digits, the sign, the
fraction bar, and the out-of-range marker. -/
def plainChar (c : Char) : Bool :=
  c.isDigit || c = '-' || c = '/' || c = '*'

/-- Errors observable from `DefaultCasters.cast`:
`cannotCast` models `new this.ErrorClass('cannot_cast')` thrown by a caster;
`invalidParamType p t` models `new ResError('invalid_param_type', \x7b param, type \x7d)`;
`nullTypeDeref` models the unguarded `TypeError` raised when `meta.type.name`
is read off a `null` type field. -/
inductive CastErr where
  | cannotCast
  | invalidParamType (param : String) (typeName : String)
  | nullTypeDeref
  deriving DecidableEq, Repr

namespace DefaultCasters

/-- `DefaultCasters.Number`: `Number(input)`, failing with `cannot_cast` on `NaN`. -/
def NumberCaster (input : JsValue) : Except CastErr JsValue :=
  match jsNumber input with
  | some n => .ok (.vNum n)
  | none => .error .cannotCast

/-- `DefaultCasters.Boolean`: booleans pass through; strings and numbers are
compared case-insensitively against the truthy and falsy literal sets; anything
else fails with `cannot_cast`. -/
def BooleanCaster (input : JsValue) : Except CastErr JsValue :=
  match input with
  | .vBool b => .ok (.vBool b)
  | .vStr _ | .vNum _ =>
      if strLower (jsStringOf input) ∈ ["1", "true", "t"] then .ok (.vBool true)
      else if strLower (jsStringOf input) ∈ ["0", "false", "f"] then .ok (.vBool false)
      else .error .cannotCast
  | _ => .error .cannotCast

/-- The property names that resolve to something truthy on a `DefaultCasters`
instance: the `ErrorClass` field, the class prototype methods and
`constructor`, and the members every object inherits from `Object.prototype`.
The source guard `!this[meta.type.name]` is falsy exactly when the name is
none of these. -/
def instanceProperties : List String :=
  ["ErrorClass", "cast", "Number", "Boolean", "constructor",
   "hasOwnProperty", "isPrototypeOf", "propertyIsEnumerable", "toLocaleString",
   "toString", "valueOf", "__defineGetter__", "__defineSetter__",
   "__lookupGetter__", "__lookupSetter__", "__proto__"]

/-- Whether `this[name]` is truthy. -/
def propertyFound (name : String) : Bool :=
  instanceProperties.contains name

/-- Invoking `this[name](rawValue)`: the two registered coercions are modelled
exactly; a name colliding with any other instance property invokes that
property, whose behaviour is outside this model and is supplied as the
uninterpreted argument `other` — the theorems below hold whatever such a call
returns or throws. -/
def runProperty (other : String → JsValue → Except CastErr JsValue)
    (name : String) (v : JsValue) : Except CastErr JsValue :=
  if name = "Number" then NumberCaster v
  else if name = "Boolean" then BooleanCaster v
  else other name v

/-- `DefaultCasters.cast(meta, rawValue)`, line for line:
`if (!meta.cast || !this[meta.type.name]) return rawValue` (reading `.name` of a
null `type` raises, and the property lookup finds casters and non-caster
properties alike); `if (rawValue instanceof meta.type) return rawValue`;
`if (rawValue === undefined) return undefined`; then the found property is
invoked and any failure is re-thrown as `invalid_param_type` with the
parameter name and type name. -/
def cast (other : String → JsValue → Except CastErr JsValue)
    (meta : EndpointParamMeta) (rawValue : JsValue) : Except CastErr JsValue :=
  if meta.cast = false then .ok rawValue
  else
    match meta.type with
    | none => .error .nullTypeDeref
    | some t =>
        if ¬ propertyFound t.name then .ok rawValue
        else if instanceofTag rawValue t then .ok rawValue
        else if rawValue = .vUndefined then .ok .vUndefined
        else
          match runProperty other t.name rawValue with
          | .ok v => .ok v
          | .error _ => .error (.invalidParamType meta.name t.name)

end DefaultCasters

/-- The binding descriptor written by the `Logger()` parameter decorator on a
controller (`decorators/log.decorator.ts` lines 52-60): decorator `LOGGER`,
`type: null`, `cast: false`. -/
def loggerParamMeta (parameterIndex : Nat) (variableName : String) : EndpointParamMeta :=
  ⟨parameterIndex, variableName, none, false, "LOGGER"⟩

/-! ### HTTP verb resolution (`getMethod`, `createEndpoint` line 102) -/

/-- The REST method enumeration. -/
inductive REST_METHODS where
  | GET
  | POST
  | PUT
  | PATCH
  | DELETE
  deriving DecidableEq, Repr

/-- Whether `small` occurs at the start of `l`. -/
def leadsWith : List Char → List Char → Bool
  | [], _ => true
  | _ :: _, [] => false
  | p :: ps, c :: cs => p = c && leadsWith ps cs

/-- Whether `pat` occurs contiguously inside `l` (JS `String.prototype.includes`). -/
def occursIn (pat : List Char) : List Char → Bool
  | [] => leadsWith pat []
  | c :: cs => leadsWith pat (c :: cs) || occursIn pat cs

/-- `s.includes(pat)` for strings. -/
def strIncludes (s pat : String) : Bool :=
  occursIn pat.data s.data

/-- `BaseController.getMethod`: a cascade of non-exclusive `if` statements, each
overwriting the previous assignment, starting from `POST`. -/
def getMethod (endpointPath : String) : REST_METHODS :=
  let method := REST_METHODS.POST
  let method := if strIncludes endpointPath "get" || strIncludes endpointPath "list" then
    REST_METHODS.GET else method
  let method := if strIncludes endpointPath "update" then REST_METHODS.PATCH else method
  let method := if strIncludes endpointPath "delete" then REST_METHODS.DELETE else method
  let method := if strIncludes endpointPath "create" then REST_METHODS.POST else method
  method

/-- The verb compiled into the route (`createEndpoint` line 102):
`(method || this.getMethod(endpoint.path)).toUpperCase()`.  The enumeration
constructors are already upper case, so `toUpperCase` is the identity here. -/
def resolveVerb (declared : Option REST_METHODS) (subPath : String) : REST_METHODS :=
  match declared with
  | some m => m
  | none => getMethod subPath

/-! ### Path normalization (`createEndpoint` lines 100-101) -/

/-- One pass of `/\/+/g → '/'`: every maximal run of slashes becomes one slash. -/
def collapseSlashes : List Char → List Char
  | [] => []
  | [c] => [c]
  | a :: b :: rest =>
      if a = '/' ∧ b = '/' then collapseSlashes (b :: rest)
      else a :: collapseSlashes (b :: rest)

/-- The path registered for a route: `` `/${endpointPath}`.replace(/\/+/g, '/') ``. -/
def normalizePath (p : String) : String :=
  String.mk (collapseSlashes ('/' :: p.data))

/-- No two consecutive slashes occur in the list. -/
def noDoubleSlash : List Char → Bool
  | [] => true
  | [_] => true
  | a :: b :: rest => !(a = '/' && b = '/') && noDoubleSlash (b :: rest)

/-! ### Parameter resolution (`getEndpointInputVars`, lines 311-332) -/

/-- A JS thrown value: only whether it `instanceof Error` matters to the
dispatcher (`handleResponseError` wraps non-Error throwables). -/
structure JsThrown where
  isError : Bool
  deriving DecidableEq, Repr

/-- `inputVars[i] = v` on a JS array: assignment at an index beyond the current
length grows the array, leaving holes (`none` = unset / `undefined`). -/
def setAtGrow : List (Option JsValue) → Nat → JsValue → List (Option JsValue)
  | [], 0, v => [some v]
  | [], n + 1, v => none :: setAtGrow [] n v
  | _ :: rest, 0, v => some v :: rest
  | x :: rest, n + 1, v => x :: setAtGrow rest n v

/-- The positional argument the handler sees at position `k`: `undefined`
(`none`) beyond the array or at a hole. -/
def argAt (l : List (Option JsValue)) (k : Nat) : Option JsValue :=
  (l.get? k).getD none

/-- The loop body of `getEndpointInputVars`: walk the descriptor list by list
position `i`; a hole logs a warning for `i` and is skipped; a descriptor is
extracted (awaited) and its value stored at `meta.index`; a failed extraction
rejects the whole resolution.  Returns the warned positions and either the
thrown value or the final argument array. -/
def fillVars (extract : EndpointParamMeta → Except JsThrown JsValue) :
    List (Option EndpointParamMeta) → Nat → List (Option JsValue) →
    List Nat × Except JsThrown (List (Option JsValue))
  | [], _, acc => ([], .ok acc)
  | none :: rest, i, acc =>
      let r := fillVars extract rest (i + 1) acc
      (i :: r.1, r.2)
  | some m :: rest, i, acc =>
      match extract m with
      | .error e => ([], .error e)
      | .ok v => fillVars extract rest (i + 1) (setAtGrow acc m.index v)

/-- `BaseController.getEndpointInputVars`: start from `Array(length)` (all
holes) and run the loop. -/
def getEndpointInputVars (extract : EndpointParamMeta → Except JsThrown JsValue)
    (metas : List (Option EndpointParamMeta)) :
    List Nat × Except JsThrown (List (Option JsValue)) :=
  fillVars extract metas 0 (List.replicate metas.length none)

/-! ### The request dispatcher (`createEndpointFunc`, `handleResponse`,
`handleResponseError`, lines 178-297) -/

/-- Observable per-request events, in emission order:  log lines, the trace-id
response header, `res.json`, `next(err)` (the error-propagation channel), the
completion log line of `handleResponse`'s `.finally` step, and a promise
rejection that no `.catch` observes. -/
inductive Ev where
  | logWarnNoDecorator (i : Nat)
  | logInfoInvoked
  | logErrorNonError
  | setHeaderTraceId
  | resJson (v : JsValue)
  | nextErr
  | completionLog (failed : Bool)
  | unhandledRejection
  deriving DecidableEq, Repr

/-- Outcome of calling the bound handler `endpointFunc(...endpointVars)`:
a synchronous throw, a value (or a promise that resolves to it), or a promise
that rejects. -/
inductive HandlerOutcome where
  | syncThrow (e : JsThrown)
  | ret (v : JsValue)
  | retRejected (e : JsThrown)
  deriving DecidableEq, Repr

/-- `BaseController.handleResponseError`: a non-Error throwable is logged at
error level and wrapped into an `Error`; then `next(err)` forwards it. -/
def handleResponseError (e : JsThrown) : List Ev :=
  (if e.isError then [] else [.logErrorNonError]) ++ [.nextErr]

/-- `BaseController.handleResponse` on the settled handler payload:
on resolution, `res.json` inside a `try` whose `catch` routes a serialization
failure to `handleResponseError`; on rejection, `endpointErr` is recorded and
the error routed; the `.finally` step always emits exactly one completion log,
whose failure flag reflects only `endpointErr` (so a serialization failure
still logs the success line). -/
def handleResponse (serialize : JsValue → Option JsThrown) :
    Except JsThrown JsValue → List Ev
  | .ok v =>
      (match serialize v with
       | none => [.resJson v]
       | some e => handleResponseError e) ++ [.completionLog false]
  | .error e => handleResponseError e ++ [.completionLog true]

/-- The events following the handler call, as a function of its outcome: a
synchronous throw rejects the async wrapper and lands in the `.catch` /
`handleResponseError`; a returned value or rejected promise is handed —
un-awaited — to `handleResponse` only when `autoResponse` is set, the trace-id
header having been attached just before; with `autoResponse` unset the return
value is dropped, so a rejected promise becomes an unhandled rejection. -/
def handlerEvents (autoResponse : Bool) (serialize : JsValue → Option JsThrown) :
    HandlerOutcome → List Ev
  | .syncThrow e => handleResponseError e
  | .ret v =>
      if autoResponse then .setHeaderTraceId :: handleResponse serialize (.ok v)
      else []
  | .retRejected e =>
      if autoResponse then .setHeaderTraceId :: handleResponse serialize (.error e)
      else [.unhandledRejection]

/-- The event trace of `actualEndpointController` (the function registered on
the route) for one request, as a function of the endpoint's `autoResponse`
flag, the serialization behaviour of `res.json`, the parameter descriptors,
the extraction outcomes, and the handler.  The async `tackerFunc` resolves
parameters (a failure rejects, reaching the `.catch` and
`handleResponseError`), logs the invocation line, calls the handler (a
synchronous throw rejects likewise), then emits the `handlerEvents` of the
outcome. -/
def dispatch (autoResponse : Bool) (serialize : JsValue → Option JsThrown)
    (metas : List (Option EndpointParamMeta))
    (extract : EndpointParamMeta → Except JsThrown JsValue)
    (handler : List (Option JsValue) → HandlerOutcome) : List Ev :=
  let r := getEndpointInputVars extract metas
  let warnEvs := r.1.map Ev.logWarnNoDecorator
  match r.2 with
  | .error e => warnEvs ++ handleResponseError e
  | .ok vars =>
      warnEvs ++ [.logInfoInvoked] ++ handlerEvents autoResponse serialize (handler vars)

/-- Recognizer of the completion log line. -/
def isCompletionLog : Ev → Bool
  | .completionLog _ => true
  | _ => false

/-- Number of completion log lines in a trace. -/
def countCompletion (evs : List Ev) : Nat :=
  evs.countP isCompletionLog

/-- Recognizer of a `res.json` serialization event. -/
def isResJson : Ev → Bool
  | .resJson _ => true
  | _ => false

/-- Number of `res.json` calls in a trace. -/
def countResJson (evs : List Ev) : Nat :=
  evs.countP isResJson

/-- Whether a `cast` result is the `invalid_param_type` error. -/
def isInvalidParamTypeResult : Except CastErr JsValue → Bool
  | .error (.invalidParamType _ _) => true
  | _ => false

/-- The argument array produced by the resolution loop when every extraction
succeeds: each descriptor's value is written at its `index` field, holes write
nothing.  (On an extraction failure the loop aborts; this function is only
related to `fillVars` under the all-extractions-succeed hypothesis.) -/
def writeAll (extract : EndpointParamMeta → Except JsThrown JsValue) :
    List (Option EndpointParamMeta) → List (Option JsValue) → List (Option JsValue)
  | [], acc => acc
  | none :: rest, acc => writeAll extract rest acc
  | some m :: rest, acc =>
      match extract m with
      | .ok v => writeAll extract rest (setAtGrow acc m.index v)
      | .error _ => acc

/-- The list positions of the holes of a descriptor list, offset by `i`:
exactly the indices the loop warns about when no extraction fails. -/
def holeIdxs : List (Option EndpointParamMeta) → Nat → List Nat
  | [], _ => []
  | none :: rest, i => i :: holeIdxs rest (i + 1)
  | some _ :: rest, i => holeIdxs rest (i + 1)

/-! ### Concrete fixtures used by witnesses and counterexamples -/

/-- A `Number`-typed, `cast=true` query binding. -/
def numQueryMeta : EndpointParamMeta := ⟨0, "p", some .tNumber, true, "QUERY"⟩

/-- A `Boolean`-typed, `cast=true` query binding. -/
def boolQueryMeta : EndpointParamMeta := ⟨0, "b", some .tBoolean, true, "QUERY"⟩

/-- A binding with `cast: true` but a `null` type field. -/
def nullTypeTrueMeta : EndpointParamMeta := ⟨0, "x", none, true, "QUERY"⟩

/-- A binding with `cast: false` and a registered type. -/
def noCastMeta : EndpointParamMeta := ⟨0, "y", some .tString, false, "QUERY"⟩

/-- A concrete stand-in for the unmodelled non-caster property behaviour, used
by witnesses and counterexamples (none of which reach it). -/
def otherStub : String → JsValue → Except CastErr JsValue := fun _ _ => .ok .vNull

/-- Out-of-order positional bindings: list positions 0,1,2 declare parameter
indices 2,0,1. -/
def metaA : EndpointParamMeta := ⟨2, "a", none, false, "QUERY"⟩

/-- Second out-of-order binding (parameter index 0 at list position 1). -/
def metaB : EndpointParamMeta := ⟨0, "b", none, false, "QUERY"⟩

/-- Third out-of-order binding (parameter index 1 at list position 2). -/
def metaC : EndpointParamMeta := ⟨1, "c", none, false, "QUERY"⟩

/-- The descriptor list bound to indices `[2, 0, 1]`. -/
def outOfOrderMetas : List (Option EndpointParamMeta) := [some metaA, some metaB, some metaC]

/-- Extraction that tags each descriptor with its own name, so argument
positions are observable. -/
def extractByName (m : EndpointParamMeta) : Except JsThrown JsValue :=
  .ok (.vStr m.name)

/-- Aligned binding at position 0. -/
def metaP0 : EndpointParamMeta := ⟨0, "p0", none, false, "QUERY"⟩

/-- Aligned binding at position 2. -/
def metaP2 : EndpointParamMeta := ⟨2, "p2", none, false, "QUERY"⟩

/-- A descriptor list with a hole at position 1. -/
def holeyMetas : List (Option EndpointParamMeta) := [some metaP0, none, some metaP2]

/-- A `res.json` that never throws. -/
def serOk : JsValue → Option JsThrown := fun _ => none

/-- Extraction that always yields `null`. -/
def extractNull : EndpointParamMeta → Except JsThrown JsValue := fun _ => .ok .vNull

/-- A handler that returns a plain value. -/
def handlerRet : List (Option JsValue) → HandlerOutcome := fun _ => .ret .vNull

/-- A handler that returns a promise rejecting with an `Error`. -/
def handlerRejected : List (Option JsValue) → HandlerOutcome := fun _ => .retRejected ⟨true⟩

/-! ## Lemmas about path normalization -/

theorem collapseSlashes_cons (l : List Char) :
    ∀ a, ∃ t, collapseSlashes (a :: l) = a :: t := by
  induction l with
  | nil => exact fun a => ⟨[], rfl⟩
  | cons b r ih =>
      intro a
      by_cases h : a = '/' ∧ b = '/'
      · obtain ⟨t, ht⟩ := ih b
        exact ⟨t, by rw [collapseSlashes, if_pos h, ht, h.1, h.2]⟩
      · exact ⟨collapseSlashes (b :: r), by rw [collapseSlashes, if_neg h]⟩

theorem collapseSlashes_noDouble (l : List Char) :
    noDoubleSlash (collapseSlashes l) = true := by
  induction l with
  | nil => rfl
  | cons a l' ih =>
      cases l' with
      | nil => rfl
      | cons b r =>
          by_cases h : a = '/' ∧ b = '/'
          · rw [collapseSlashes, if_pos h]; exact ih
          · rw [collapseSlashes, if_neg h]
            obtain ⟨t, ht⟩ := collapseSlashes_cons r b
            rw [ht] at ih ⊢
            rw [noDoubleSlash, ih, Bool.and_true]
            simp only [Bool.not_eq_true', Bool.and_eq_false_iff, decide_eq_false_iff_not]
            by_cases ha : a = '/'
            · exact Or.inr fun hb => h ⟨ha, hb⟩
            · exact Or.inl ha

theorem collapseSlashes_fixed (l : List Char) (h : noDoubleSlash l = true) :
    collapseSlashes l = l := by
  induction l with
  | nil => rfl
  | cons a l' ih =>
      cases l' with
      | nil => rfl
      | cons b r =>
          rw [noDoubleSlash, Bool.and_eq_true] at h
          have hab : ¬(a = '/' ∧ b = '/') := by
            rcases h with ⟨h1, _⟩
            intro hc
            rw [hc.1, hc.2] at h1
            simp at h1
          rw [collapseSlashes, if_neg hab, ih h.2]

/-- Claim C8: the path normalization applied before route registration is
idempotent, and for every input the result begins with exactly one path
separator and contains no run of two or more consecutive separators. -/
theorem normalizePath_spec (p : String) :
    normalizePath (normalizePath p) = normalizePath p ∧
    (normalizePath p).data.head? = some '/' ∧
    noDoubleSlash (normalizePath p).data = true := by
  obtain ⟨t, ht⟩ := collapseSlashes_cons p.data '/'
  refine ⟨?_, ?_, ?_⟩
  · show String.mk (collapseSlashes ('/' :: (String.mk (collapseSlashes ('/' :: p.data))).data)) = _
    have hdata : (String.mk (collapseSlashes ('/' :: p.data))).data
        = collapseSlashes ('/' :: p.data) := rfl
    rw [hdata, ht]
    have step : collapseSlashes ('/' :: '/' :: t) = collapseSlashes ('/' :: t) := by
      rw [collapseSlashes, if_pos ⟨rfl, rfl⟩]
    have fixed : collapseSlashes ('/' :: t) = '/' :: t := by
      rw [← ht]
      exact collapseSlashes_fixed _ (collapseSlashes_noDouble ('/' :: p.data))
    rw [step, fixed, ← ht]
    rfl
  · show (collapseSlashes ('/' :: p.data)).head? = some '/'
    rw [ht]; rfl
  · exact collapseSlashes_noDouble ('/' :: p.data)

/-! ## Verb resolution -/

/-- Claim C1 counterexample: the sub-path `"get-update"` contains `"get"` yet
compiles (with no declared verb) to `PATCH`, not `GET`: the keyword checks are
non-exclusive `if` statements and a later match overwrites an earlier one. -/
theorem getMethod_get_update_is_PATCH :
    strIncludes "get-update" "get" = true ∧
    resolveVerb none "get-update" = REST_METHODS.PATCH := by
  exact ⟨by decide, by rfl⟩

/-- Claim C1 amended: for an endpoint with no declared verb, the sub-path
keywords are tested in order get/list, update, delete, create, each match
overwriting the previous result, so the effective priority is reversed:
contains "create" → POST; otherwise contains "delete" → DELETE; otherwise
contains "update" → PATCH; otherwise contains "get" or "list" → GET;
otherwise POST. -/
theorem getMethod_keyword_priority (p : String) :
    resolveVerb none p =
      if strIncludes p "create" then REST_METHODS.POST
      else if strIncludes p "delete" then REST_METHODS.DELETE
      else if strIncludes p "update" then REST_METHODS.PATCH
      else if strIncludes p "get" || strIncludes p "list" then REST_METHODS.GET
      else REST_METHODS.POST := by
  cases h1 : strIncludes p "get" <;> cases h2 : strIncludes p "list" <;>
    cases h3 : strIncludes p "update" <;> cases h4 : strIncludes p "delete" <;>
    cases h5 : strIncludes p "create" <;>
    simp [resolveVerb, getMethod, h1, h2, h3, h4, h5]

/-! ## Lemmas about rendered numbers -/

theorem charLower_digitChar : ∀ n : Nat, charLower (digitChar n) = digitChar n
  | 0 | 1 | 2 | 3 | 4 | 5 | 6 | 7 | 8 | 9 => rfl
  | _ + 10 => rfl

theorem plainChar_digitChar : ∀ n : Nat, plainChar (digitChar n) = true
  | 0 | 1 | 2 | 3 | 4 | 5 | 6 | 7 | 8 | 9 => rfl
  | _ + 10 => rfl

theorem charLower_dash : charLower '-' = '-' := rfl

theorem charLower_slash : charLower '/' = '/' := rfl

theorem natToChars_map_charLower (f : Nat) :
    ∀ n, (natToChars f n).map charLower = natToChars f n := by
  induction f with
  | zero => intro n; rfl
  | succ f ih =>
      intro n
      by_cases h : n < 10
      · rw [natToChars, if_pos h]
        simp [charLower_digitChar]
      · rw [natToChars, if_neg h]
        simp [List.map_append, ih, charLower_digitChar]

theorem intChars_map_charLower (i : Int) : (intChars i).map charLower = intChars i := by
  unfold intChars
  by_cases h : i < 0
  · rw [if_pos h]
    simp [natToChars_map_charLower, charLower_dash]
  · rw [if_neg h]
    exact natToChars_map_charLower _ _

theorem strLower_ratToStr (q : Rat) : strLower (ratToStr q) = ratToStr q := by
  unfold ratToStr strLower intToStr
  by_cases h : q.den = 1
  · rw [if_pos h]
    show String.mk ((intChars q.num).map charLower) = _
    rw [intChars_map_charLower]
  · rw [if_neg h]
    show String.mk ((intChars q.num ++ '/' :: natToChars (q.den + 1) q.den).map charLower) = _
    simp [List.map_append, intChars_map_charLower, natToChars_map_charLower, charLower_slash]

theorem natToChars_plain (f : Nat) :
    ∀ n c, c ∈ natToChars f n → plainChar c = true := by
  induction f with
  | zero => intro n c h; simp [natToChars] at h
  | succ f ih =>
      intro n c h
      by_cases hn : n < 10
      · rw [natToChars, if_pos hn] at h
        simp at h
        rw [h]
        exact plainChar_digitChar n
      · rw [natToChars, if_neg hn] at h
        rw [List.mem_append] at h
        rcases h with h | h
        · exact ih _ _ h
        · simp at h
          rw [h]
          exact plainChar_digitChar _

theorem intChars_plain (i : Int) : ∀ c, c ∈ intChars i → plainChar c = true := by
  intro c h
  unfold intChars at h
  by_cases hi : i < 0
  · rw [if_pos hi] at h
    rcases List.mem_cons.mp h with h | h
    · rw [h]; rfl
    · exact natToChars_plain _ _ _ h
  · rw [if_neg hi] at h
    exact natToChars_plain _ _ _ h

theorem ratToStr_plain (q : Rat) : ∀ c, c ∈ (ratToStr q).data → plainChar c = true := by
  intro c h
  unfold ratToStr at h
  by_cases hd : q.den = 1
  · rw [if_pos hd] at h
    exact intChars_plain _ _ h
  · rw [if_neg hd] at h
    rw [show (String.mk (intChars q.num ++ '/' :: natToChars (q.den + 1) q.den)).data
      = intChars q.num ++ '/' :: natToChars (q.den + 1) q.den from rfl,
      List.mem_append] at h
    rcases h with h | h
    · exact intChars_plain _ _ h
    · rcases List.mem_cons.mp h with h | h
      · rw [h]; rfl
      · exact natToChars_plain _ _ _ h

theorem natToChars_ne_nil (f n : Nat) (hf : 0 < f) : natToChars f n ≠ [] := by
  cases f with
  | zero => omega
  | succ f =>
      by_cases h : n < 10
      · rw [natToChars, if_pos h]
        simp
      · rw [natToChars, if_neg h]
        simp

theorem digit_single_one : ∀ k : Nat, k < 10 → digitChar k = '1' → k = 1 := by decide

theorem digit_single_zero : ∀ k : Nat, k < 10 → digitChar k = '0' → k = 0 := by decide

theorem natToChars_canon_single (n : Nat) (c : Char) (h : natToChars (n + 1) n = [c]) :
    n < 10 ∧ digitChar n = c := by
  by_cases hn : n < 10
  · rw [natToChars, if_pos hn] at h
    exact ⟨hn, by simpa using h⟩
  · rw [natToChars, if_neg hn] at h
    have hlen := congrArg List.length h
    simp [List.length_append] at hlen
    exact absurd hlen (natToChars_ne_nil n (n / 10) (by omega))

theorem intChars_eq_one_iff (i : Int) : intChars i = ['1'] ↔ i = 1 := by
  constructor
  · intro h
    unfold intChars at h
    by_cases hi : i < 0
    · rw [if_pos hi] at h
      simp at h
    · rw [if_neg hi] at h
      obtain ⟨hlt, hc⟩ := natToChars_canon_single i.toNat '1' h
      have h1 := digit_single_one i.toNat hlt hc
      omega
  · rintro rfl
    rfl

theorem intChars_eq_zero_iff (i : Int) : intChars i = ['0'] ↔ i = 0 := by
  constructor
  · intro h
    unfold intChars at h
    by_cases hi : i < 0
    · rw [if_pos hi] at h
      simp at h
    · rw [if_neg hi] at h
      obtain ⟨hlt, hc⟩ := natToChars_canon_single i.toNat '0' h
      have h1 := digit_single_zero i.toNat hlt hc
      omega
  · rintro rfl
    rfl

theorem ratToStr_eq_one_iff (q : Rat) : ratToStr q = "1" ↔ q = 1 := by
  unfold ratToStr
  by_cases hd : q.den = 1
  · rw [if_pos hd]
    unfold intToStr
    constructor
    · intro h
      have hl : intChars q.num = ['1'] := by
        have hdata := congrArg String.data h
        simpa using hdata
      have hn := (intChars_eq_one_iff q.num).mp hl
      exact Rat.ext (by simpa using hn) (by simpa using hd)
    · rintro rfl
      rfl
  · rw [if_neg hd]
    constructor
    · intro h
      have hm : '/' ∈ ("1" : String).data := by
        rw [← h]
        show '/' ∈ intChars q.num ++ '/' :: natToChars (q.den + 1) q.den
        exact List.mem_append.mpr (Or.inr (List.mem_cons_self _ _))
      simp at hm
    · rintro rfl
      exact absurd rfl hd

theorem ratToStr_eq_zero_iff (q : Rat) : ratToStr q = "0" ↔ q = 0 := by
  unfold ratToStr
  by_cases hd : q.den = 1
  · rw [if_pos hd]
    unfold intToStr
    constructor
    · intro h
      have hl : intChars q.num = ['0'] := by
        have hdata := congrArg String.data h
        simpa using hdata
      have hn := (intChars_eq_zero_iff q.num).mp hl
      exact Rat.ext (by simpa using hn) (by simpa using hd)
    · rintro rfl
      rfl
  · rw [if_neg hd]
    constructor
    · intro h
      have hm : '/' ∈ ("0" : String).data := by
        rw [← h]
        show '/' ∈ intChars q.num ++ '/' :: natToChars (q.den + 1) q.den
        exact List.mem_append.mpr (Or.inr (List.mem_cons_self _ _))
      simp at hm
    · rintro rfl
      exact absurd rfl hd

theorem ratToStr_mem_truthy_iff (q : Rat) :
    strLower (ratToStr q) ∈ ["1", "true", "t"] ↔ q = 1 := by
  rw [strLower_ratToStr]
  simp only [List.mem_cons, List.not_mem_nil, or_false]
  constructor
  · rintro (h | h | h)
    · exact (ratToStr_eq_one_iff q).mp h
    · exact absurd (ratToStr_plain q 't' (by rw [h]; decide)) (by decide)
    · exact absurd (ratToStr_plain q 't' (by rw [h]; decide)) (by decide)
  · rintro rfl
    exact Or.inl ((ratToStr_eq_one_iff 1).mpr rfl)

theorem ratToStr_mem_falsy_iff (q : Rat) :
    strLower (ratToStr q) ∈ ["0", "false", "f"] ↔ q = 0 := by
  rw [strLower_ratToStr]
  simp only [List.mem_cons, List.not_mem_nil, or_false]
  constructor
  · rintro (h | h | h)
    · exact (ratToStr_eq_zero_iff q).mp h
    · exact absurd (ratToStr_plain q 'f' (by rw [h]; decide)) (by decide)
    · exact absurd (ratToStr_plain q 'f' (by rw [h]; decide)) (by decide)
  · rintro rfl
    exact Or.inl ((ratToStr_eq_zero_iff 0).mpr rfl)

theorem BooleanCaster_num (q : Rat) :
    DefaultCasters.BooleanCaster (.vNum q) =
      if q = 1 then .ok (.vBool true)
      else if q = 0 then .ok (.vBool false)
      else .error .cannotCast := by
  show (if strLower (jsStringOf (.vNum q)) ∈ ["1", "true", "t"] then Except.ok (JsValue.vBool true)
    else if strLower (jsStringOf (.vNum q)) ∈ ["0", "false", "f"] then Except.ok (JsValue.vBool false)
    else Except.error CastErr.cannotCast) = _
  rw [show jsStringOf (.vNum q) = ratToStr q from rfl]
  by_cases h1 : q = 1
  · rw [if_pos ((ratToStr_mem_truthy_iff q).mpr h1), if_pos h1]
  · rw [if_neg (fun hm => h1 ((ratToStr_mem_truthy_iff q).mp hm)), if_neg h1]
    by_cases h0 : q = 0
    · rw [if_pos ((ratToStr_mem_falsy_iff q).mpr h0), if_pos h0]
    · rw [if_neg (fun hm => h0 ((ratToStr_mem_falsy_iff q).mp hm)), if_neg h0]

/-! ## Lemmas about `DefaultCasters.cast` -/

theorem cast_false_eq (other : String → JsValue → Except CastErr JsValue)
    (meta : EndpointParamMeta) (v : JsValue) (hc : meta.cast = false) :
    DefaultCasters.cast other meta v = .ok v := by
  rw [DefaultCasters.cast, hc]
  rfl

theorem cast_true_none_eq (other : String → JsValue → Except CastErr JsValue)
    (meta : EndpointParamMeta) (v : JsValue)
    (hc : meta.cast = true) (ht : meta.type = none) :
    DefaultCasters.cast other meta v = .error .nullTypeDeref := by
  rw [DefaultCasters.cast, hc, ht]
  rfl

theorem cast_true_some_eq (other : String → JsValue → Except CastErr JsValue)
    (meta : EndpointParamMeta) (t : TypeTag) (v : JsValue)
    (hc : meta.cast = true) (ht : meta.type = some t) :
    DefaultCasters.cast other meta v =
      if ¬ DefaultCasters.propertyFound t.name then .ok v
      else if instanceofTag v t then .ok v
      else if v = .vUndefined then .ok .vUndefined
      else
        match DefaultCasters.runProperty other t.name v with
        | .ok w => .ok w
        | .error _ => .error (.invalidParamType meta.name t.name) := by
  rw [DefaultCasters.cast, hc, ht]
  rfl

/-- Claim C5 counterexample: `undefined` is a raw input whose numeric parse
fails (`Number(undefined)` is `NaN`), yet for a `cast=true`, `Number`-typed
descriptor `cast` returns it unchanged instead of raising
`INVALID_PARAM_TYPE`: the `rawValue === undefined` guard returns before the
coercion runs. -/
theorem cast_number_undefined_passthrough :
    jsNumber .vUndefined = none ∧
    DefaultCasters.cast otherStub numQueryMeta .vUndefined = .ok .vUndefined ∧
    isInvalidParamTypeResult (DefaultCasters.cast otherStub numQueryMeta .vUndefined) = false :=
  ⟨rfl, rfl, rfl⟩

/-- Claim C5 amended: for every `cast=true`, `Number`-typed descriptor —
whatever the non-caster properties do — `"42"` casts to the number `42`, and
every raw value whose numeric parse fails (`"abc"`, or any other `NaN` parse)
makes `cast` raise `INVALID_PARAM_TYPE` carrying the parameter name and
declared type, except `undefined`, which passes through unchanged, and
`Number`-class instances, which the `instanceof` guard returns as-is; the raw
`CANNOT_CAST` coercion error is never what the caller of `cast` observes. -/
theorem cast_number_spec (other : String → JsValue → Except CastErr JsValue)
    (meta : EndpointParamMeta) (hc : meta.cast = true)
    (ht : meta.type = some TypeTag.tNumber) :
    DefaultCasters.cast other meta (.vStr "42") = .ok (.vNum 42) ∧
    DefaultCasters.cast other meta (.vStr "abc")
      = .error (.invalidParamType meta.name "Number") ∧
    (∀ v, jsNumber v = none → v ≠ .vUndefined → instanceofTag v .tNumber = false →
        DefaultCasters.cast other meta v = .error (.invalidParamType meta.name "Number")) ∧
    DefaultCasters.cast other meta .vUndefined = .ok .vUndefined ∧
    DefaultCasters.cast other meta (.vObj "Number") = .ok (.vObj "Number") ∧
    (∀ v, DefaultCasters.cast other meta v ≠ .error .cannotCast) := by
  have hp : DefaultCasters.propertyFound "Number" = true := by decide
  refine ⟨?_, ?_, ?_, ?_, ?_, ?_⟩
  · rw [cast_true_some_eq other meta _ _ hc ht]
    rfl
  · rw [cast_true_some_eq other meta _ _ hc ht]
    rfl
  · intro v hv hvu hvi
    rw [cast_true_some_eq other meta _ _ hc ht]
    cases v with
    | vStr s =>
        simp only [jsNumber] at hv
        simp [hp, instanceofTag, TypeTag.name, DefaultCasters.runProperty,
          DefaultCasters.NumberCaster, jsNumber, hv]
    | vNum q => simp [jsNumber] at hv
    | vBool b => simp [jsNumber] at hv
    | vNull => simp [jsNumber] at hv
    | vUndefined => exact absurd rfl hvu
    | vObj c =>
        simp only [instanceofTag, TypeTag.name, decide_eq_false_iff_not] at hvi
        simp [hp, instanceofTag, TypeTag.name, hvi, DefaultCasters.runProperty,
          DefaultCasters.NumberCaster, jsNumber]
  · rw [cast_true_some_eq other meta _ _ hc ht]
    rfl
  · rw [cast_true_some_eq other meta _ _ hc ht]
    rfl
  · intro v
    rw [cast_true_some_eq other meta _ _ hc ht]
    cases v with
    | vStr s =>
        rcases h : strToRatOpt s with _ | q <;>
          simp [hp, instanceofTag, TypeTag.name, DefaultCasters.runProperty,
            DefaultCasters.NumberCaster, jsNumber, h]
    | vNum q =>
        simp [hp, instanceofTag, TypeTag.name, DefaultCasters.runProperty,
          DefaultCasters.NumberCaster, jsNumber]
    | vBool b =>
        simp [hp, instanceofTag, TypeTag.name, DefaultCasters.runProperty,
          DefaultCasters.NumberCaster, jsNumber]
    | vNull =>
        simp [hp, instanceofTag, TypeTag.name, DefaultCasters.runProperty,
          DefaultCasters.NumberCaster, jsNumber]
    | vUndefined => simp [hp]
    | vObj c =>
        by_cases hcn : c = "Number" <;>
          simp [hp, instanceofTag, TypeTag.name, hcn, DefaultCasters.runProperty,
            DefaultCasters.NumberCaster, jsNumber]

/-- Claim C5 witness at the concrete binding `numQueryMeta`. -/
theorem cast_number_spec_witness :
    DefaultCasters.cast otherStub numQueryMeta (.vStr "42") = .ok (.vNum 42) :=
  (cast_number_spec otherStub numQueryMeta rfl rfl).1

/-- Claim C6 counterexample: for a `cast=true`, `Boolean`-typed descriptor the
raw value `undefined` — which is neither a boolean nor a string nor a number —
does not raise `INVALID_PARAM_TYPE`: it passes through unchanged, because the
`rawValue === undefined` guard returns before the coercion runs. -/
theorem cast_boolean_undefined_passthrough :
    DefaultCasters.cast otherStub boolQueryMeta .vUndefined = .ok .vUndefined ∧
    isInvalidParamTypeResult (DefaultCasters.cast otherStub boolQueryMeta .vUndefined) = false :=
  ⟨rfl, rfl⟩

/-- Claim C6 amended: for a `cast=true`, `Boolean`-typed descriptor — whatever
the non-caster properties do — a boolean raw value is returned as-is; a string
whose lower-cased form is `"1"`, `"true"` or `"t"` casts to `true`, and `"0"`,
`"false"` or `"f"` casts to `false`; a number casts to `true` exactly when it
is `1` and to `false` exactly when it is `0`; every other raw value raises
`INVALID_PARAM_TYPE` — except `undefined`, which passes through unchanged, and
`Boolean`-class instances, which the `instanceof` guard returns as-is. -/
theorem cast_boolean_spec (other : String → JsValue → Except CastErr JsValue)
    (meta : EndpointParamMeta) (hc : meta.cast = true)
    (ht : meta.type = some TypeTag.tBoolean) :
    (∀ b, DefaultCasters.cast other meta (.vBool b) = .ok (.vBool b)) ∧
    (∀ s, strLower s ∈ ["1", "true", "t"] →
        DefaultCasters.cast other meta (.vStr s) = .ok (.vBool true)) ∧
    (∀ s, strLower s ∈ ["0", "false", "f"] →
        DefaultCasters.cast other meta (.vStr s) = .ok (.vBool false)) ∧
    (∀ s, strLower s ∉ ["1", "true", "t"] → strLower s ∉ ["0", "false", "f"] →
        DefaultCasters.cast other meta (.vStr s)
          = .error (.invalidParamType meta.name "Boolean")) ∧
    DefaultCasters.cast other meta (.vNum 1) = .ok (.vBool true) ∧
    DefaultCasters.cast other meta (.vNum 0) = .ok (.vBool false) ∧
    (∀ q : Rat, q ≠ 1 → q ≠ 0 →
        DefaultCasters.cast other meta (.vNum q)
          = .error (.invalidParamType meta.name "Boolean")) ∧
    DefaultCasters.cast other meta .vNull = .error (.invalidParamType meta.name "Boolean") ∧
    (∀ c, c ≠ "Boolean" →
        DefaultCasters.cast other meta (.vObj c)
          = .error (.invalidParamType meta.name "Boolean")) ∧
    DefaultCasters.cast other meta (.vObj "Boolean") = .ok (.vObj "Boolean") ∧
    DefaultCasters.cast other meta .vUndefined = .ok .vUndefined := by
  have hp : DefaultCasters.propertyFound "Boolean" = true := by decide
  refine ⟨?_, ?_, ?_, ?_, ?_, ?_, ?_, ?_, ?_, ?_, ?_⟩
  · intro b
    rw [cast_true_some_eq other meta _ _ hc ht]
    cases b <;> rfl
  · intro s hs
    rw [cast_true_some_eq other meta _ _ hc ht]
    simp [hp, instanceofTag, TypeTag.name, DefaultCasters.runProperty,
      DefaultCasters.BooleanCaster, jsStringOf, hs]
  · intro s hs1
    rw [cast_true_some_eq other meta _ _ hc ht]
    by_cases hs0 : strLower s ∈ ["1", "true", "t"]
    · simp at hs1 hs0
      rcases hs0 with h | h | h <;> rw [h] at hs1 <;> simp at hs1
    · simp [hp, instanceofTag, TypeTag.name, DefaultCasters.runProperty,
        DefaultCasters.BooleanCaster, jsStringOf, hs0, hs1]
  · intro s hs1 hs2
    rw [cast_true_some_eq other meta _ _ hc ht]
    simp [hp, instanceofTag, TypeTag.name, DefaultCasters.runProperty,
      DefaultCasters.BooleanCaster, jsStringOf, hs1, hs2]
  · rw [cast_true_some_eq other meta _ _ hc ht]
    rfl
  · rw [cast_true_some_eq other meta _ _ hc ht]
    rfl
  · intro q hq1 hq0
    rw [cast_true_some_eq other meta _ _ hc ht]
    have hb := BooleanCaster_num q
    rw [if_neg hq1, if_neg hq0] at hb
    simp [hp, instanceofTag, TypeTag.name, DefaultCasters.runProperty, hb]
  · rw [cast_true_some_eq other meta _ _ hc ht]
    rfl
  · intro c hcn
    rw [cast_true_some_eq other meta _ _ hc ht]
    simp [hp, instanceofTag, TypeTag.name, DefaultCasters.runProperty,
      DefaultCasters.BooleanCaster, hcn]
  · rw [cast_true_some_eq other meta _ _ hc ht]
    rfl
  · rw [cast_true_some_eq other meta _ _ hc ht]
    rfl

/-- Claim C6 witness at the concrete binding `boolQueryMeta`: the string
`"TrUe"` casts to `true` and the out-of-set number `5` raises
`INVALID_PARAM_TYPE`. -/
theorem cast_boolean_spec_witness :
    DefaultCasters.cast otherStub boolQueryMeta (.vStr "TrUe") = .ok (.vBool true) ∧
    DefaultCasters.cast otherStub boolQueryMeta (.vNum 5)
      = .error (.invalidParamType "b" "Boolean") :=
  ⟨(cast_boolean_spec otherStub boolQueryMeta rfl rfl).2.1 "TrUe" (by decide),
    (cast_boolean_spec otherStub boolQueryMeta rfl rfl).2.2.2.2.2.2.1 5
      (by decide) (by decide)⟩

/-- Claim C7 counterexample: `rawValue` being `undefined` is not by itself
enough for identity pass-through: with `cast=true` and a `null` declared type,
`cast` fails on the `meta.type.name` dereference instead of returning the raw
value. -/
theorem cast_undefined_null_type_crashes :
    DefaultCasters.cast otherStub nullTypeTrueMeta .vUndefined = .error .nullTypeDeref ∧
    isInvalidParamTypeResult (DefaultCasters.cast otherStub nullTypeTrueMeta .vUndefined) = false :=
  ⟨rfl, rfl⟩

/-- Claim C7 amended: `cast(descriptor, rawValue)` returns `rawValue` unchanged
whenever the descriptor's `cast` flag is false; or the declared type's name
resolves to no property of the caster object — the source guard tests property
presence, not registered coercions, so a type name colliding with a non-caster
property such as `cast`, `ErrorClass`, `constructor` or `toString` is invoked
rather than passed through; or `rawValue` is an instance of the declared type;
or `rawValue` is `undefined` — the last two provided a declared type is
present (with `cast=true` and a `null` type the guard dereferences the type
name and fails instead).  In particular `cast(descriptor, "5")` with
`cast=false` returns the string `"5"`. -/
theorem cast_identity_spec (other : String → JsValue → Except CastErr JsValue)
    (meta : EndpointParamMeta) (v : JsValue) :
    (meta.cast = false → DefaultCasters.cast other meta v = .ok v) ∧
    (∀ t, meta.type = some t → DefaultCasters.propertyFound t.name = false →
        DefaultCasters.cast other meta v = .ok v) ∧
    (∀ t, meta.type = some t → instanceofTag v t = true →
        DefaultCasters.cast other meta v = .ok v) ∧
    (∀ t, meta.type = some t → v = .vUndefined →
        DefaultCasters.cast other meta v = .ok v) ∧
    (meta.cast = false → DefaultCasters.cast other meta (.vStr "5") = .ok (.vStr "5")) := by
  refine ⟨fun hc => cast_false_eq other meta v hc, ?_, ?_, ?_,
    fun hc => cast_false_eq other meta _ hc⟩
  · intro t ht hreg
    rcases hc : meta.cast with _ | _
    · exact cast_false_eq other meta v hc
    · rw [cast_true_some_eq other meta t v hc ht]
      simp [hreg]
  · intro t ht hinst
    rcases hc : meta.cast with _ | _
    · exact cast_false_eq other meta v hc
    · rw [cast_true_some_eq other meta t v hc ht]
      by_cases hreg : DefaultCasters.propertyFound t.name
      · simp [hreg, hinst]
      · simp [hreg]
  · intro t ht hv
    rcases hc : meta.cast with _ | _
    · exact cast_false_eq other meta v hc
    · rw [cast_true_some_eq other meta t v hc ht]
      subst hv
      by_cases hreg : DefaultCasters.propertyFound t.name
      · by_cases hinst : instanceofTag .vUndefined t <;> simp [hreg, hinst]
      · simp [hreg]

/-- Claim C7 witness: with `cast=false`, `"5"` round-trips unchanged through
`cast` at the concrete binding `noCastMeta`. -/
theorem cast_identity_spec_witness :
    DefaultCasters.cast otherStub noCastMeta (.vStr "5") = .ok (.vStr "5") :=
  (cast_identity_spec otherStub noCastMeta (.vStr "5")).2.2.2.2 rfl

/-- Claim C10: `cast` dereferences the declared type's name in the guard before
the error-wrapping `try` block, so `cast=true` with a `null` type fails with the
unguarded error — never the wrapped `INVALID_PARAM_TYPE` — for every raw value,
while `cast=false` (in particular the `LOGGER` binding built by the `Logger`
decorator, whose type is `null` and whose cast flag is false) is always safe
because the cast-flag check short-circuits first. -/
theorem cast_null_type_guard (other : String → JsValue → Except CastErr JsValue)
    (meta : EndpointParamMeta) (v : JsValue)
    (ht : meta.type = none) :
    (meta.cast = true → DefaultCasters.cast other meta v = .error .nullTypeDeref) ∧
    (meta.cast = true →
        isInvalidParamTypeResult (DefaultCasters.cast other meta v) = false) ∧
    (meta.cast = false → DefaultCasters.cast other meta v = .ok v) ∧
    (∀ i n, DefaultCasters.cast other (loggerParamMeta i n) v = .ok v) := by
  refine ⟨fun hc => cast_true_none_eq other meta v hc ht, ?_,
    fun hc => cast_false_eq other meta v hc, fun i n => cast_false_eq other _ v rfl⟩
  intro hc
  rw [cast_true_none_eq other meta v hc ht]
  rfl

/-- Claim C10 witness at the concrete bindings `nullTypeTrueMeta` and a
`LOGGER` binding. -/
theorem cast_null_type_guard_witness :
    DefaultCasters.cast otherStub (loggerParamMeta 2 "log") .vNull = .ok .vNull :=
  (cast_null_type_guard otherStub nullTypeTrueMeta .vNull rfl).2.2.2 2 "log"

/-! ## Lemmas about parameter resolution -/

theorem argAt_nil (k : Nat) : argAt [] k = none := by
  cases k <;> rfl

theorem argAt_replicate (n k : Nat) : argAt (List.replicate n none) k = none := by
  induction n generalizing k with
  | zero => exact argAt_nil k
  | succ n ih =>
      cases k with
      | zero => rfl
      | succ k => exact ih k

theorem setAtGrow_self (i : Nat) : ∀ (acc : List (Option JsValue)) (v : JsValue),
    argAt (setAtGrow acc i v) i = some v := by
  induction i with
  | zero => intro acc v; cases acc <;> rfl
  | succ n ih =>
      intro acc v
      cases acc with
      | nil => exact ih [] v
      | cons x r => exact ih r v

theorem setAtGrow_ne (i : Nat) : ∀ (acc : List (Option JsValue)) (v : JsValue) (k : Nat),
    k ≠ i → argAt (setAtGrow acc i v) k = argAt acc k := by
  induction i with
  | zero =>
      intro acc v k hk
      cases acc with
      | nil =>
          cases k with
          | zero => exact absurd rfl hk
          | succ m => rw [argAt_nil]; cases m <;> rfl
      | cons x r =>
          cases k with
          | zero => exact absurd rfl hk
          | succ m => rfl
  | succ n ih =>
      intro acc v k hk
      cases acc with
      | nil =>
          cases k with
          | zero => rfl
          | succ m =>
              have : argAt (setAtGrow [] n v) m = argAt [] m :=
                ih [] v m (fun h => hk (by rw [h]))
              calc argAt (none :: setAtGrow [] n v) (m + 1)
                  = argAt (setAtGrow [] n v) m := rfl
                _ = argAt [] m := this
                _ = none := argAt_nil m
                _ = argAt [] (m + 1) := (argAt_nil (m + 1)).symm
      | cons x r =>
          cases k with
          | zero => rfl
          | succ m => exact ih r v m (fun h => hk (by rw [h]))

theorem fillVars_eq (extract : EndpointParamMeta → Except JsThrown JsValue) :
    ∀ (metas : List (Option EndpointParamMeta)),
    (∀ m', some m' ∈ metas → ∃ v', extract m' = .ok v') →
    ∀ (i : Nat) (acc : List (Option JsValue)),
    fillVars extract metas i acc = (holeIdxs metas i, .ok (writeAll extract metas acc)) := by
  intro metas
  induction metas with
  | nil => intro _ i acc; rfl
  | cons o rest ih =>
      intro hex i acc
      have hex' : ∀ m', some m' ∈ rest → ∃ v', extract m' = .ok v' :=
        fun m' h => hex m' (List.mem_cons_of_mem o h)
      cases o with
      | none =>
          simp only [fillVars, writeAll, holeIdxs]
          rw [ih hex' (i + 1) acc]
      | some m =>
          obtain ⟨v, hv⟩ := hex m (List.mem_cons_self _ _)
          simp only [fillVars, writeAll, holeIdxs, hv]
          exact ih hex' (i + 1) (setAtGrow acc m.index v)

theorem writeAll_untouched (extract : EndpointParamMeta → Except JsThrown JsValue) (k : Nat) :
    ∀ (metas : List (Option EndpointParamMeta)) (acc : List (Option JsValue)),
    (∀ m', some m' ∈ metas → m'.index ≠ k) →
    argAt (writeAll extract metas acc) k = argAt acc k := by
  intro metas
  induction metas with
  | nil => intro acc _; rfl
  | cons o rest ih =>
      intro acc hni
      have hni' : ∀ m', some m' ∈ rest → m'.index ≠ k :=
        fun m' h => hni m' (List.mem_cons_of_mem o h)
      cases o with
      | none => exact ih acc hni'
      | some m =>
          rcases h : extract m with e | v
          · simp only [writeAll, h]
          · simp only [writeAll, h]
            rw [ih (setAtGrow acc m.index v) hni']
            exact setAtGrow_ne m.index acc v k
              (fun he => hni m (List.mem_cons_self _ _) (he ▸ rfl))

theorem mem_paramIndices (metas : List (Option EndpointParamMeta)) (m : EndpointParamMeta)
    (hm : some m ∈ metas) :
    m.index ∈ metas.filterMap (fun o => o.map EndpointParamMeta.index) :=
  List.mem_filterMap.mpr ⟨some m, hm, rfl⟩

theorem writeAll_hit (extract : EndpointParamMeta → Except JsThrown JsValue) :
    ∀ (metas : List (Option EndpointParamMeta)) (acc : List (Option JsValue))
      (m : EndpointParamMeta) (v : JsValue),
    (metas.filterMap (fun o => o.map EndpointParamMeta.index)).Nodup →
    (∀ m', some m' ∈ metas → ∃ v', extract m' = .ok v') →
    some m ∈ metas → extract m = .ok v →
    argAt (writeAll extract metas acc) m.index = some v := by
  intro metas
  induction metas with
  | nil => intro acc m v _ _ hm; exact absurd hm (List.not_mem_nil _)
  | cons o rest ih =>
      intro acc m v hnd hex hm hv
      have hex' : ∀ m', some m' ∈ rest → ∃ v', extract m' = .ok v' :=
        fun m' h => hex m' (List.mem_cons_of_mem o h)
      cases o with
      | none =>
          have hm' : some m ∈ rest := by
            rcases List.mem_cons.mp hm with h | h
            · exact absurd h.symm (by simp)
            · exact h
          have hnd' : (rest.filterMap (fun o => o.map EndpointParamMeta.index)).Nodup := by
            simpa using hnd
          exact ih acc m v hnd' hex' hm' hv
      | some m₀ =>
          have hfm : ((some m₀ :: rest).filterMap (fun o => o.map EndpointParamMeta.index))
              = m₀.index :: rest.filterMap (fun o => o.map EndpointParamMeta.index) := by
            simp
          rw [hfm] at hnd
          have hni : m₀.index ∉ rest.filterMap (fun o => o.map EndpointParamMeta.index) :=
            (List.nodup_cons.mp hnd).1
          have hnd' := (List.nodup_cons.mp hnd).2
          obtain ⟨v₀, hv₀⟩ := hex m₀ (List.mem_cons_self _ _)
          simp only [writeAll, hv₀]
          rcases List.mem_cons.mp hm with h | h
          · have hmm : m = m₀ := by injection h
            subst hmm
            obtain rfl : v₀ = v := by
              rw [hv] at hv₀
              injection hv₀ with h2
              exact h2.symm
            rw [writeAll_untouched extract m.index rest (setAtGrow acc m.index v₀)
              (fun m'' h'' he => hni (he ▸ mem_paramIndices rest m'' h''))]
            exact setAtGrow_self m.index acc v₀
          · exact ih (setAtGrow acc m₀.index v₀) m v hnd' hex' h hv

/-- Claim C4: when every extraction succeeds and the declared parameter indices
are pairwise distinct, the positional argument array passed to the handler
carries each descriptor's extracted value at the position given by the
descriptor's `index` field — whatever order the descriptors appear in the
list. -/
theorem inputVars_positional (extract : EndpointParamMeta → Except JsThrown JsValue)
    (metas : List (Option EndpointParamMeta)) (m : EndpointParamMeta) (v : JsValue)
    (hnodup : (metas.filterMap (fun o => o.map EndpointParamMeta.index)).Nodup)
    (hex : ∀ m', some m' ∈ metas → ∃ v', extract m' = .ok v')
    (hm : some m ∈ metas) (hv : extract m = .ok v) :
    ∃ ws res, getEndpointInputVars extract metas = (ws, .ok res) ∧
      argAt res m.index = some v :=
  ⟨holeIdxs metas 0, writeAll extract metas (List.replicate metas.length none),
    fillVars_eq extract metas hex 0 _,
    writeAll_hit extract metas _ m v hnodup hex hm hv⟩

/-- Claim C4 witness: handler parameters bound to indices `[2, 0, 1]`
(out-of-order declaration); the value extracted for the descriptor with index 0
(sitting at list position 1) lands at argument position 0. -/
theorem inputVars_positional_witness :
    ∃ ws res, getEndpointInputVars extractByName outOfOrderMetas = (ws, .ok res) ∧
      argAt res 0 = some (.vStr "b") :=
  inputVars_positional extractByName outOfOrderMetas metaB (.vStr "b")
    (by decide) (fun m' _ => ⟨.vStr m'.name, rfl⟩) (by decide) rfl

theorem holeIdxs_mem :
    ∀ (metas : List (Option EndpointParamMeta)) (i j : Nat),
    metas.get? j = some none → (i + j) ∈ holeIdxs metas i := by
  intro metas
  induction metas with
  | nil => intro i j h; simp at h
  | cons o rest ih =>
      intro i j h
      cases j with
      | zero =>
          have ho : o = none := by simpa using h
          subst ho
          simp [holeIdxs]
      | succ j =>
          have h' : rest.get? j = some none := by simpa using h
          have hmem := ih (i + 1) j h'
          have harith : i + (j + 1) = (i + 1) + j := by omega
          cases o with
          | none =>
              rw [holeIdxs, harith]
              exact List.mem_cons_of_mem i hmem
          | some m => rw [holeIdxs, harith]; exact hmem

theorem aligned_nodup :
    ∀ (metas : List (Option EndpointParamMeta)) (i : Nat),
    (∀ j m', metas.get? j = some (some m') → m'.index = j + i) →
    (metas.filterMap (fun o => o.map EndpointParamMeta.index)).Nodup := by
  intro metas
  induction metas with
  | nil => intro i _; simp
  | cons o rest ih =>
      intro i h
      have h' : ∀ j m', rest.get? j = some (some m') → m'.index = j + (i + 1) := by
        intro j m' hj
        have := h (j + 1) m' (by simpa using hj)
        omega
      cases o with
      | none => simpa using ih (i + 1) h'
      | some m₀ =>
          have h0 : m₀.index = i := by simpa using h 0 m₀ rfl
          have hfm : ((some m₀ :: rest).filterMap (fun o => o.map EndpointParamMeta.index))
              = m₀.index :: rest.filterMap (fun o => o.map EndpointParamMeta.index) := by
            simp
          rw [hfm]
          refine List.nodup_cons.mpr ⟨?_, ih (i + 1) h'⟩
          intro hmem
          obtain ⟨o', ho', hmap⟩ := List.mem_filterMap.mp hmem
          cases o' with
          | none => simp at hmap
          | some m'' =>
              have hidx : m''.index = m₀.index := by simpa using hmap
              obtain ⟨j, hj⟩ := List.mem_iff_get?.mp ho'
              have := h' j m'' hj
              omega

/-- Claim C9: for a descriptor list whose entries sit at their declared indices
but with a hole at position `k`, parameter resolution still succeeds (a missing
binding is never an error), the loop records a warning for position `k`, the
handler's argument at position `k` is `undefined`, and every present binding is
still resolved to its extracted value at its own position. -/
theorem inputVars_hole (extract : EndpointParamMeta → Except JsThrown JsValue)
    (metas : List (Option EndpointParamMeta)) (k : Nat)
    (haligned : ∀ j m', metas.get? j = some (some m') → m'.index = j)
    (hhole : metas.get? k = some none)
    (hex : ∀ m', some m' ∈ metas → ∃ v', extract m' = .ok v') :
    ∃ ws res, getEndpointInputVars extract metas = (ws, .ok res) ∧
      k ∈ ws ∧ argAt res k = none ∧
      (∀ j m' v', metas.get? j = some (some m') → extract m' = .ok v' →
          argAt res j = some v') := by
  have hkey : ∀ m', some m' ∈ metas → m'.index ≠ k := by
    intro m' hm' heq
    obtain ⟨j, hj⟩ := List.mem_iff_get?.mp hm'
    have hidx := haligned j m' hj
    rw [heq] at hidx
    rw [← hidx] at hj
    rw [hj] at hhole
    simp at hhole
  refine ⟨holeIdxs metas 0, writeAll extract metas (List.replicate metas.length none),
    fillVars_eq extract metas hex 0 _, ?_, ?_, ?_⟩
  · simpa using holeIdxs_mem metas 0 k hhole
  · rw [writeAll_untouched extract k metas _ hkey]
    exact argAt_replicate metas.length k
  · intro j m' v' hj hv'
    have hm' : some m' ∈ metas := List.mem_iff_get?.mpr ⟨j, hj⟩
    have hidx : m'.index = j := haligned j m' hj
    rw [← hidx]
    exact writeAll_hit extract metas _ m' v'
      (aligned_nodup metas 0 (by simpa using haligned)) hex hm' hv'

/-- Claim C9 witness: descriptors at positions 0 and 2 with a hole at
position 1: resolution succeeds, position 1 is warned about and left
`undefined`, and position 2 still gets its extracted value. -/
theorem inputVars_hole_witness :
    ∃ ws res, getEndpointInputVars extractByName holeyMetas = (ws, .ok res) ∧
      1 ∈ ws ∧ argAt res 1 = none := by
  have haligned : ∀ j m', holeyMetas.get? j = some (some m') → m'.index = j := by
    intro j m' hj
    match j with
    | 0 =>
        have : metaP0 = m' := by simpa [holeyMetas] using hj
        rw [← this]; rfl
    | 1 => simp [holeyMetas] at hj
    | 2 =>
        have : metaP2 = m' := by simpa [holeyMetas] using hj
        rw [← this]; rfl
    | j + 3 => simp [holeyMetas] at hj
  obtain ⟨ws, res, h1, h2, h3, _⟩ :=
    inputVars_hole extractByName holeyMetas 1 haligned rfl
      (fun m' _ => ⟨.vStr m'.name, rfl⟩)
  exact ⟨ws, res, h1, h2, h3⟩

/-! ## Lemmas about the dispatcher traces -/

theorem countCompletion_append (l1 l2 : List Ev) :
    countCompletion (l1 ++ l2) = countCompletion l1 + countCompletion l2 :=
  List.countP_append _ _ _

theorem countCompletion_warns (ws : List Nat) :
    countCompletion (ws.map Ev.logWarnNoDecorator) = 0 := by
  induction ws with
  | nil => rfl
  | cons w ws ih =>
      simp only [List.map_cons, countCompletion, List.countP_cons] at ih ⊢
      simp [ih, isCompletionLog]

theorem countCompletion_hre (e : JsThrown) : countCompletion (handleResponseError e) = 0 := by
  rcases e with ⟨b⟩
  cases b <;> rfl

theorem countCompletion_hr (serialize : JsValue → Option JsThrown)
    (r : Except JsThrown JsValue) :
    countCompletion (handleResponse serialize r) = 1 := by
  cases r with
  | ok v =>
      rcases h : serialize v with _ | e
      · simp only [handleResponse, h]
        rfl
      · simp only [handleResponse, h]
        rw [countCompletion_append, countCompletion_hre]
        rfl
  | error e =>
      simp only [handleResponse]
      rw [countCompletion_append, countCompletion_hre]
      rfl

theorem dispatch_eq_error (a : Bool) (serialize : JsValue → Option JsThrown)
    (metas : List (Option EndpointParamMeta))
    (extract : EndpointParamMeta → Except JsThrown JsValue)
    (handler : List (Option JsValue) → HandlerOutcome)
    (ws : List Nat) (e : JsThrown)
    (hr : getEndpointInputVars extract metas = (ws, .error e)) :
    dispatch a serialize metas extract handler
      = ws.map Ev.logWarnNoDecorator ++ handleResponseError e := by
  unfold dispatch
  rw [hr]

theorem dispatch_eq_sync (a : Bool) (serialize : JsValue → Option JsThrown)
    (metas : List (Option EndpointParamMeta))
    (extract : EndpointParamMeta → Except JsThrown JsValue)
    (handler : List (Option JsValue) → HandlerOutcome)
    (ws : List Nat) (vars : List (Option JsValue)) (e : JsThrown)
    (hr : getEndpointInputVars extract metas = (ws, .ok vars))
    (hh : handler vars = .syncThrow e) :
    dispatch a serialize metas extract handler
      = ws.map Ev.logWarnNoDecorator ++ [Ev.logInfoInvoked] ++ handleResponseError e := by
  unfold dispatch
  rw [hr]
  show _ ++ _ ++ handlerEvents a serialize (handler vars) = _
  rw [hh]
  rfl

theorem dispatch_eq_ret_true (serialize : JsValue → Option JsThrown)
    (metas : List (Option EndpointParamMeta))
    (extract : EndpointParamMeta → Except JsThrown JsValue)
    (handler : List (Option JsValue) → HandlerOutcome)
    (ws : List Nat) (vars : List (Option JsValue)) (v : JsValue)
    (hr : getEndpointInputVars extract metas = (ws, .ok vars))
    (hh : handler vars = .ret v) :
    dispatch true serialize metas extract handler
      = ws.map Ev.logWarnNoDecorator ++ [Ev.logInfoInvoked]
        ++ (Ev.setHeaderTraceId :: handleResponse serialize (.ok v)) := by
  unfold dispatch
  rw [hr]
  show _ ++ _ ++ handlerEvents true serialize (handler vars) = _
  rw [hh]
  rfl

theorem dispatch_eq_ret_false (serialize : JsValue → Option JsThrown)
    (metas : List (Option EndpointParamMeta))
    (extract : EndpointParamMeta → Except JsThrown JsValue)
    (handler : List (Option JsValue) → HandlerOutcome)
    (ws : List Nat) (vars : List (Option JsValue)) (v : JsValue)
    (hr : getEndpointInputVars extract metas = (ws, .ok vars))
    (hh : handler vars = .ret v) :
    dispatch false serialize metas extract handler
      = ws.map Ev.logWarnNoDecorator ++ [Ev.logInfoInvoked] ++ [] := by
  unfold dispatch
  rw [hr]
  show _ ++ _ ++ handlerEvents false serialize (handler vars) = _
  rw [hh]
  rfl

theorem dispatch_eq_rej_true (serialize : JsValue → Option JsThrown)
    (metas : List (Option EndpointParamMeta))
    (extract : EndpointParamMeta → Except JsThrown JsValue)
    (handler : List (Option JsValue) → HandlerOutcome)
    (ws : List Nat) (vars : List (Option JsValue)) (e : JsThrown)
    (hr : getEndpointInputVars extract metas = (ws, .ok vars))
    (hh : handler vars = .retRejected e) :
    dispatch true serialize metas extract handler
      = ws.map Ev.logWarnNoDecorator ++ [Ev.logInfoInvoked]
        ++ (Ev.setHeaderTraceId :: handleResponse serialize (.error e)) := by
  unfold dispatch
  rw [hr]
  show _ ++ _ ++ handlerEvents true serialize (handler vars) = _
  rw [hh]
  rfl

theorem dispatch_eq_rej_false (serialize : JsValue → Option JsThrown)
    (metas : List (Option EndpointParamMeta))
    (extract : EndpointParamMeta → Except JsThrown JsValue)
    (handler : List (Option JsValue) → HandlerOutcome)
    (ws : List Nat) (vars : List (Option JsValue)) (e : JsThrown)
    (hr : getEndpointInputVars extract metas = (ws, .ok vars))
    (hh : handler vars = .retRejected e) :
    dispatch false serialize metas extract handler
      = ws.map Ev.logWarnNoDecorator ++ [Ev.logInfoInvoked] ++ [Ev.unhandledRejection] := by
  unfold dispatch
  rw [hr]
  show _ ++ _ ++ handlerEvents false serialize (handler vars) = _
  rw [hh]
  rfl

theorem countCompletion_header_hr (serialize : JsValue → Option JsThrown)
    (r : Except JsThrown JsValue) :
    countCompletion (Ev.setHeaderTraceId :: handleResponse serialize r) = 1 := by
  simpa [countCompletion, List.countP_cons, isCompletionLog]
    using countCompletion_hr serialize r

/-- Claim C2 counterexample: a request on an `autoResponse=false` endpoint with
a successfully returning handler emits no completion log line at all — the
completion log lives in `handleResponse`, which only runs when `autoResponse`
is true. -/
theorem dispatch_completion_missing :
    countCompletion (dispatch false serOk [] extractNull handlerRet) = 0 := rfl

/-- Claim C2 amended: the completion log line is emitted exactly once iff
`autoResponse` is true, parameter extraction succeeded, and the handler did not
throw synchronously; in every other outcome (`autoResponse` false, extraction
failure, or a synchronous handler throw) no completion log line is emitted.  It
is never emitted more than once. -/
theorem dispatch_completion_count (a : Bool) (serialize : JsValue → Option JsThrown)
    (metas : List (Option EndpointParamMeta))
    (extract : EndpointParamMeta → Except JsThrown JsValue)
    (handler : List (Option JsValue) → HandlerOutcome) :
    countCompletion (dispatch a serialize metas extract handler) =
      match (getEndpointInputVars extract metas).2 with
      | .error _ => 0
      | .ok vars =>
          match handler vars with
          | .syncThrow _ => 0
          | .ret _ => if a then 1 else 0
          | .retRejected _ => if a then 1 else 0 := by
  rcases hr : getEndpointInputVars extract metas with ⟨ws, r⟩
  cases r with
  | error e =>
      rw [dispatch_eq_error a serialize metas extract handler ws e hr,
        countCompletion_append, countCompletion_warns, countCompletion_hre]
  | ok vars =>
      show countCompletion (dispatch a serialize metas extract handler) =
        match handler vars with
        | HandlerOutcome.syncThrow _ => 0
        | HandlerOutcome.ret _ => if a = true then 1 else 0
        | HandlerOutcome.retRejected _ => if a = true then 1 else 0
      cases hh : handler vars with
      | syncThrow e =>
          rw [dispatch_eq_sync a serialize metas extract handler ws vars e hr hh,
            countCompletion_append, countCompletion_append, countCompletion_warns,
            countCompletion_hre]
          rfl
      | ret v =>
          cases a with
          | false =>
              rw [dispatch_eq_ret_false serialize metas extract handler ws vars v hr hh,
                countCompletion_append, countCompletion_append, countCompletion_warns]
              rfl
          | true =>
              rw [dispatch_eq_ret_true serialize metas extract handler ws vars v hr hh,
                countCompletion_append, countCompletion_append, countCompletion_warns,
                countCompletion_header_hr]
              rfl
      | retRejected e =>
          cases a with
          | false =>
              rw [dispatch_eq_rej_false serialize metas extract handler ws vars e hr hh,
                countCompletion_append, countCompletion_append, countCompletion_warns]
              rfl
          | true =>
              rw [dispatch_eq_rej_true serialize metas extract handler ws vars e hr hh,
                countCompletion_append, countCompletion_append, countCompletion_warns,
                countCompletion_header_hr]
              rfl

/-- Claim C3 counterexample: on an `autoResponse=false` endpoint, a handler that
returns a rejected promise produces an unhandled rejection and nothing reaches
the error-propagation channel (`next`): the dispatcher never awaits the
handler's return value in this mode. -/
theorem dispatch_rejected_promise_unhandled :
    dispatch false serOk [] extractNull handlerRejected
      = [Ev.logInfoInvoked, Ev.unhandledRejection] := rfl

/-- Claim C3 amended: with `autoResponse` false the dispatcher performs no
response serialization and sets no trace-id header; but it does not await the
handler's result: a rejected promise returned by the handler escapes as an
unhandled rejection and never reaches the error-propagation channel, while a
synchronous throw is still caught and forwarded to `next`. -/
theorem dispatch_without_autoresponse (serialize : JsValue → Option JsThrown)
    (metas : List (Option EndpointParamMeta))
    (extract : EndpointParamMeta → Except JsThrown JsValue)
    (handler : List (Option JsValue) → HandlerOutcome) :
    countResJson (dispatch false serialize metas extract handler) = 0 ∧
    Ev.setHeaderTraceId ∉ dispatch false serialize metas extract handler ∧
    (∀ vars e, (getEndpointInputVars extract metas).2 = .ok vars →
        handler vars = .retRejected e →
        Ev.unhandledRejection ∈ dispatch false serialize metas extract handler ∧
        Ev.nextErr ∉ dispatch false serialize metas extract handler) ∧
    (∀ vars e, (getEndpointInputVars extract metas).2 = .ok vars →
        handler vars = .syncThrow e →
        Ev.nextErr ∈ dispatch false serialize metas extract handler) := by
  rcases hr : getEndpointInputVars extract metas with ⟨ws, r⟩
  cases r with
  | error e =>
      rcases e with ⟨b⟩
      rw [dispatch_eq_error false serialize metas extract handler ws ⟨b⟩ hr]
      refine ⟨?_, ?_, ?_, ?_⟩
      · cases b <;>
          simp [countResJson, List.countP_append, List.countP_cons, handleResponseError,
            isResJson, List.countP_eq_zero, List.mem_map]
      · cases b <;> simp [handleResponseError, List.mem_append, List.mem_map]
      · intro vars e' hok
        simp at hok
      · intro vars e' hok
        simp at hok
  | ok vars =>
      cases hh : handler vars with
      | syncThrow e =>
          rcases e with ⟨b⟩
          rw [dispatch_eq_sync false serialize metas extract handler ws vars ⟨b⟩ hr hh]
          refine ⟨?_, ?_, ?_, ?_⟩
          · cases b <;>
              simp [countResJson, List.countP_append, List.countP_cons, handleResponseError,
                isResJson, List.countP_eq_zero, List.mem_map]
          · cases b <;> simp [handleResponseError, List.mem_append, List.mem_map]
          · intro vars' e' hok hh'
            obtain rfl : vars' = vars := by simpa using hok.symm
            rw [hh] at hh'
            simp at hh'
          · intro vars' e' hok hh'
            cases b <;> simp [handleResponseError, List.mem_append, List.mem_map]
      | ret v =>
          rw [dispatch_eq_ret_false serialize metas extract handler ws vars v hr hh]
          refine ⟨?_, ?_, ?_, ?_⟩
          · simp [countResJson, List.countP_append, List.countP_cons,
              isResJson, List.countP_eq_zero, List.mem_map]
          · simp [List.mem_append, List.mem_map]
          · intro vars' e' hok hh'
            obtain rfl : vars' = vars := by simpa using hok.symm
            rw [hh] at hh'
            simp at hh'
          · intro vars' e' hok hh'
            obtain rfl : vars' = vars := by simpa using hok.symm
            rw [hh] at hh'
            simp at hh'
      | retRejected e =>
          rw [dispatch_eq_rej_false serialize metas extract handler ws vars e hr hh]
          refine ⟨?_, ?_, ?_, ?_⟩
          · simp [countResJson, List.countP_append, List.countP_cons,
              isResJson, List.countP_eq_zero, List.mem_map]
          · simp [List.mem_append, List.mem_map]
          · intro vars' e' hok hh'
            simp [List.mem_append, List.mem_map]
          · intro vars' e' hok hh'
            obtain rfl : vars' = vars := by simpa using hok.symm
            rw [hh] at hh'
            simp at hh'

/-- Claim C3 witness: at a concrete `autoResponse=false` endpoint whose handler
rejects, the unhandled rejection is observable in the trace. -/
theorem dispatch_without_autoresponse_witness :
    Ev.unhandledRejection ∈ dispatch false serOk [] extractNull handlerRejected :=
  ((dispatch_without_autoresponse serOk [] extractNull handlerRejected).2.2.1
    [] ⟨true⟩ rfl rfl).1

end Reef
